import Mathlib

/-!
Verification of the Theme Engine browser extension (srizon/theme-engine).

The development shallowly embeds the content-script CSS pipeline
(`processCSS`, `addImportantToCSS`, `sanitizeCSS`), the style injector
(`applyCSS` / `removeCSS` / `insertStyleElement`), the URL matcher
(`shouldApplyThemeToCurrentURL`, `urlPatternToRegex`) and the reactive
evaluation paths (`loadAndApplyCSS`, `checkAndApplyCSS`, the message
listener) of `content.js`, together with the popup-side copy of the CSS
pipeline from `popup.js`.

JavaScript strings are modelled as `List Char` (the alias `Str`), and the
handful of `String.prototype` operations the source uses (`split` on a
single-character separator, `join`, `trim`, `includes`, `startsWith`,
`endsWith`, `toLowerCase`, literal `replace`) are defined here with the
ECMAScript semantics the source relies on.
-/

/-- JavaScript strings are modelled as lists of characters. -/
abbrev Str : Type := List Char

/-- Coerce a Lean string literal into the `List Char` model. -/
def str (s : String) : Str := s.data

/-- ECMAScript whitespace recognised by `String.prototype.trim`
(restricted to the code points that can occur in this development). -/
def isJSWS (c : Char) : Bool :=
  c = ' ' || c = '\t' || c = '\n' || c = '\r' ||
  c = '\x0b' || c = '\x0c' || c = ' ' || c = '﻿'

/-- Drop leading JS whitespace (the front half of `trim`). -/
def trimStart (s : Str) : Str := s.dropWhile isJSWS

/-- Drop trailing JS whitespace (the back half of `trim`). -/
def trimEnd (s : Str) : Str := (s.reverse.dropWhile isJSWS).reverse

/-- `String.prototype.trim`. -/
def jsTrim (s : Str) : Str := trimEnd (trimStart s)

/-- Rebuild the head of a split: prepend a character onto the first chunk. -/
def consHead (a : Char) : List Str → List Str
  | [] => [[a]]
  | g :: gs => (a :: g) :: gs

/-- `String.prototype.split` with a single-character separator: cuts at
every occurrence of the separator and keeps empty chunks, exactly as in
ECMAScript (`"a;;b".split(";") = ["a","","b"]`). -/
def jsSplit (c : Char) : Str → List Str
  | [] => [[]]
  | a :: l => if a = c then [] :: jsSplit c l else consHead a (jsSplit c l)

/-- `Array.prototype.join` with an arbitrary separator string. -/
def jsJoin (sep : Str) : List Str → Str
  | [] => []
  | [x] => x
  | x :: xs => x ++ sep ++ jsJoin sep xs

/-- Does `s` start with `pat` (exact, case-sensitive)?
`String.prototype.startsWith`. -/
def jsStartsWith (pat s : Str) : Bool :=
  match pat, s with
  | [], _ => true
  | _ :: _, [] => false
  | p :: ps, c :: cs => p = c && jsStartsWith ps cs

/-- Does `s` end with `pat`? `String.prototype.endsWith`. -/
def jsEndsWith (pat s : Str) : Bool := jsStartsWith pat.reverse s.reverse

/-- Does `s` contain `pat` as a contiguous substring?
`String.prototype.includes`. -/
def jsIncludes (pat : Str) : Str → Bool
  | [] => pat.isEmpty
  | c :: cs => jsStartsWith pat (c :: cs) || jsIncludes pat cs

/-- ASCII lower-casing of a whole string (`String.prototype.toLowerCase`;
all strings in this development are ASCII). -/
def toLowerStr (s : Str) : Str := s.map Char.toLower

/-- Case-insensitive prefix test (used to model regexes carrying the `i`
flag). -/
def ciStartsWith (pat s : Str) : Bool :=
  jsStartsWith (toLowerStr pat) (toLowerStr s)

/-- The `{` character (written via its code point). -/
def openBrace : Char := Char.ofNat 123

/-- The `}` character (written via its code point). -/
def closeBrace : Char := Char.ofNat 125

namespace ThemeEngineContent

/-- The per-property step of `addImportantToCSS` (the arrow function
passed to `.map` over the `;`-split property list in content.js
lines 239-250): trim the statement, keep empty statements as-is, pass
through statements already containing `!important`, and append
` !important` to the rest. -/
def addImportantProperty (property : Str) : Str :=
  let trimmedProperty := jsTrim property
  if trimmedProperty = [] then trimmedProperty
  else if jsIncludes (str ("!important")) trimmedProperty then trimmedProperty
  else trimmedProperty ++ str (" !important")

/-- The property pipeline of `addImportantToCSS` (content.js lines
238-252): split the rule body on `;`, process each statement, drop the
statements that came out empty, and rejoin with `; `. -/
def processProps (properties : Str) : Str :=
  jsJoin (str ("; "))
    (((jsSplit ';' properties).map addImportantProperty).filter
      (fun property => !property.isEmpty))

/-- The per-chunk step of `addImportantToCSS` (content.js lines
225-255): blank chunks and chunks that do not split on `{` into exactly
a selector and a body are passed through unchanged; otherwise the rule
is re-emitted as `selector {\n  properties\n}` with `!important`
injected into each property. -/
def processRule (rule : Str) : Str :=
  if jsTrim rule = [] then rule
  else
    match jsSplit openBrace rule with
    | [selPart, propPart] =>
      let selector := jsTrim selPart
      let properties := jsTrim propPart
      if properties = [] then rule
      else selector ++ str (" \x7b\n  ") ++ processProps properties ++ str ("\n\x7d")
    | _ => rule

/-- `addImportantToCSS` (content.js lines 222-258): split the CSS on
`}`, process every chunk, and rejoin the chunks with newlines. -/
def addImportantToCSS (css : Str) : Str :=
  jsJoin (str ("\n")) ((jsSplit closeBrace css).map processRule)

/-- The line classifier of `processCSS` (content.js lines 188-200): a
line is a CSS-variable definition iff its trimmed form is non-empty,
starts with `--` and contains a `:`. -/
def isVariableLine (line : Str) : Bool :=
  let trimmedLine := jsTrim line
  !trimmedLine.isEmpty && jsStartsWith (str ("--")) trimmedLine &&
    jsIncludes (str (":")) trimmedLine

/-- The `cssVariables` accumulator of `processCSS`: the trimmed
variable lines, each indented by two spaces. -/
def cssVariableLines (lines : List Str) : List Str :=
  (lines.filter isVariableLine).map (fun line => str ("  ") ++ jsTrim line)

/-- The `otherCSS` accumulator of `processCSS`: every line (in original
form) that is not a variable definition, blank lines included. -/
def otherCSSLines (lines : List Str) : List Str :=
  lines.filter (fun line => !isVariableLine line)

/-- `processCSS` (content.js lines 181-218): split the raw CSS into
lines, separate variable definitions from the rest, inject `!important`
into the rest, and assemble `:root` and `html, body` variable blocks
(when any variables exist) followed by the processed remainder (when it
is not blank). -/
def processCSS (rawCSS : Str) : Str :=
  let lines := jsSplit '\n' rawCSS
  let cssVariables := cssVariableLines lines
  let processedCSS := addImportantToCSS (jsJoin (str ("\n")) (otherCSSLines lines))
  (if cssVariables.length > 0 then
    str (":root \x7b\n") ++ jsJoin (str ("\n")) cssVariables ++ str ("\n\x7d\n") ++
    str ("html, body \x7b\n") ++ jsJoin (str ("\n")) cssVariables ++ str ("\n\x7d\n\n")
  else []) ++
  (if jsTrim processedCSS = [] then [] else processedCSS)

end ThemeEngineContent

/-- Case-insensitive global literal replacement, the semantics of
`String.prototype.replace` with a literal-text `gi` regex as the source
uses it: scan left to right, and at each position either splice in the
replacement and jump past the match, or keep the character. Later
scanning resumes after the replaced span, so a fresh occurrence formed
by the splice is not re-matched (ECMAScript behaviour). The fuel
argument only forces structural recursion: every step consumes at least
one input character, so fuel equal to the input length never runs out. -/
def jsReplaceAllCIAux (pat repl : Str) : Nat → Str → Str
  | 0, s => s
  | _ + 1, [] => []
  | fuel + 1, c :: cs =>
    if ciStartsWith pat (c :: cs) then
      repl ++ jsReplaceAllCIAux pat repl fuel (List.drop (pat.length - 1) cs)
    else c :: jsReplaceAllCIAux pat repl fuel cs

/-- Entry point of the literal `gi` replacement. -/
def jsReplaceAllCI (pat repl s : Str) : Str := jsReplaceAllCIAux pat repl s.length s

/-- A `\w` word character of ECMAScript regexes. -/
def isWordChar (c : Char) : Bool := c.isAlphanum || c = '_'

/-- Does a `\b` word boundary hold right after a word character, given
the rest of the input? -/
def boundaryAfter : Str → Bool
  | [] => true
  | c :: _ => !isWordChar c

/-- Search for the first case-insensitive occurrence of `pat` and
return everything after it. -/
def dropThroughCI (pat : Str) : Str → Option Str
  | [] => none
  | c :: cs =>
    if ciStartsWith pat (c :: cs) then some (List.drop (pat.length - 1) cs)
    else dropThroughCI pat cs

/-- The `<script …>…</script>`-removing first step of `sanitizeCSS`
(content.js line 327). The source applies the regex
`/<script\b[^<]*(?:(?!<\/script>)<[^<]*)*<\/script>/gi` globally with
an empty replacement; that regex matches from each `<script` followed
by a word boundary through the first subsequent `</script>` (there is
no match when no closing tag follows), so the model removes exactly
those spans, scanning left to right. The fuel argument only forces
structural recursion; fuel equal to the input length never runs out. -/
def stripScriptTagsAux : Nat → Str → Str
  | 0, s => s
  | _ + 1, [] => []
  | fuel + 1, c :: cs =>
    if ciStartsWith (str ("<script")) (c :: cs) && boundaryAfter (List.drop 6 cs) then
      match dropThroughCI (str ("</script>")) (List.drop 6 cs) with
      | some rest => stripScriptTagsAux fuel rest
      | none => c :: stripScriptTagsAux fuel cs
    else c :: stripScriptTagsAux fuel cs

/-- Entry point of the script-tag stripper. -/
def stripScriptTags (s : Str) : Str := stripScriptTagsAux s.length s

namespace ThemeEngineContent

/-- `sanitizeCSS` (content.js lines 323-332): strip `<script>` spans,
remove `javascript:` and `expression(` occurrences, rewrite
`url(javascript:` to `url(`, then trim. -/
def sanitizeCSS (css : Str) : Str :=
  jsTrim
    (jsReplaceAllCI (str ("url(javascript:")) (str ("url("))
      (jsReplaceAllCI (str ("expression(")) []
        (jsReplaceAllCI (str ("javascript:")) []
          (stripScriptTags css))))

end ThemeEngineContent

/-- The JavaScript exception relevant to this development: reading an
identifier that is not in scope raises a `ReferenceError`. -/
inductive JSError : Type
  | referenceError
  deriving DecidableEq, Repr

deriving instance DecidableEq for Except

/-- The observable parts of a parsed WHATWG URL that content.js reads:
`hostname`, plus the pieces needed to rebuild `href`. -/
structure URLRec where
  scheme : Str
  hostname : Str
  port : Str
  path : Str
  deriving DecidableEq, Repr

/-- Split a string at the first occurrence of `://`, returning the part
before (the candidate scheme) and the part after. -/
def splitSchemeSep : Str → Option (Str × Str)
  | [] => none
  | c :: cs =>
    if jsStartsWith (str ("://")) (c :: cs) then some ([], List.drop 2 cs)
    else (splitSchemeSep cs).map (fun p => (c :: p.1, p.2))

/-- Characters that terminate the host portion of a URL. -/
def hostStop (c : Char) : Bool := c = '/' || c = ':' || c = '?' || c = '#'

/-- Model of the platform `new URL(input)` constructor, restricted to
the absolute-URL shapes this development exercises
(`scheme://host[:port][/path]`): the scheme must be non-empty and
alphabetic, the host non-empty and free of whitespace (real WHATWG
parsing rejects more host strings, but whitespace rejection is what the
inputs here rely on; note that `*` is a valid WHATWG host), and an
explicit port must be all digits. Scheme and host are lower-cased and
an empty path becomes `/`, so that `href` round-trips canonically.
Returns `none` where the constructor throws a `TypeError`. -/
def parseURL (s : Str) : Option URLRec :=
  match splitSchemeSep s with
  | none => none
  | some (scheme, rest) =>
    if scheme ≠ [] && scheme.all Char.isAlpha then
      let host := rest.takeWhile (fun c => !hostStop c)
      let rest2 := rest.drop host.length
      if host ≠ [] && host.all (fun c => !isJSWS c) then
        match rest2 with
        | ':' :: r3 =>
          let port := r3.takeWhile (fun c => !(c = '/' || c = '?' || c = '#'))
          if port.all Char.isDigit then
            some ⟨toLowerStr scheme, toLowerStr host, port,
                  if r3.drop port.length = [] then str ("/") else r3.drop port.length⟩
          else none
        | _ => some ⟨toLowerStr scheme, toLowerStr host, [],
                     if rest2 = [] then str ("/") else rest2⟩
      else none
    else none

/-- The `href` property of a parsed URL. -/
def hrefOf (u : URLRec) : Str :=
  u.scheme ++ str ("://") ++ u.hostname ++
    (if u.port = [] then [] else ':' :: u.port) ++ u.path

/-- Is a string free of the code points that an ECMAScript `.` (no `s`
flag) refuses to match? -/
def noNewline (s : Str) : Bool :=
  s.all (fun c => !(c = '\n' || c = '\r' || c = ' ' || c = ' '))

/-- Matcher for the regexes `urlPatternToRegex` builds. A compiled
pattern is `^` + (literal segments separated by `.*`) + `$` with the
`i` flag, so matching means: the first segment is a prefix, the
remaining segments occur in order, the last one ends the string, and
the gaps consumed by `.*` contain no line terminator. The segment lists
here are already lower-cased; the existential choice of each gap is
decided by searching every split point. -/
def segsMatch : List Str → Str → Bool
  | [], t => t.isEmpty
  | [seg], t => t == seg
  | seg :: seg2 :: rest, t =>
    jsStartsWith seg t &&
      (List.range (t.length - seg.length + 1)).any (fun k =>
        noNewline (List.take k (List.drop seg.length t)) &&
          segsMatch (seg2 :: rest) (List.drop k (List.drop seg.length t)))

namespace ThemeEngineContent

/-- `urlPatternToRegex` (content.js lines 393-399) escapes every regex
metacharacter except `*`, turns each `*` into `.*`, and anchors the
result at both ends under the `i` flag. Since all non-`*` characters
become literals, the compiled regex is captured exactly by the list of
literal segments between the `*`s; `regexTest` below gives the regex
its meaning. -/
def urlPatternToRegex (pattern : Str) : List Str :=
  jsSplit '*' pattern

/-- `RegExp.prototype.test` for a compiled (anchored, case-insensitive)
wildcard pattern. -/
def regexTest (segs : List Str) (s : Str) : Bool :=
  segsMatch (segs.map toLowerStr) (toLowerStr s)

/-- A persisted theme record, reduced to the fields content.js reads:
the target pattern (`websiteUrl`, possibly absent) and the raw CSS. -/
structure Theme where
  websiteUrl : Option Str
  css : Str
  deriving DecidableEq, Repr

/-- The textual-fallback `catch` block of `shouldApplyThemeToCurrentURL`
(content.js lines 383-387). The source returns
`currentUrl.includes(targetUrl) || targetUrl.includes(current.hostname)`,
but `current` is a `const` bound inside the `try` block and is not in
scope in the `catch` block, so when the first disjunct is false the
evaluation of `current.hostname` throws a `ReferenceError`; `||`
short-circuits, so a true first disjunct still returns `true`. -/
def urlMatchFallback (currentUrl targetUrl : Str) : Except JSError Bool :=
  if jsIncludes targetUrl currentUrl then Except.ok true
  else Except.error JSError.referenceError

/-- `shouldApplyThemeToCurrentURL` (content.js lines 335-390), with
`window.location.href` passed in as `currentUrl`. An `Except.error`
result models the call throwing. -/
def shouldApplyThemeToCurrentURL (currentUrl : Str) (theme : Theme) :
    Except JSError Bool :=
  match theme.websiteUrl with
  | none => Except.ok true
  | some w =>
    if jsTrim w = [] then Except.ok true
    else
      let targetUrl := jsTrim w
      if toLowerStr targetUrl = str ("all sites") ||
          toLowerStr targetUrl = str ("for all sites") then Except.ok true
      else
        match parseURL currentUrl with
        | none => urlMatchFallback currentUrl targetUrl
        | some current =>
          let normalizedTargetUrl :=
            if jsStartsWith (str ("http://")) targetUrl ||
                jsStartsWith (str ("https://")) targetUrl then targetUrl
            else str ("https://") ++ targetUrl
          match parseURL normalizedTargetUrl with
          | none => urlMatchFallback currentUrl targetUrl
          | some target =>
            if hrefOf current = hrefOf target then Except.ok true
            else if current.hostname = target.hostname then Except.ok true
            else if jsEndsWith ('.' :: target.hostname) current.hostname ||
                jsEndsWith ('.' :: current.hostname) target.hostname then Except.ok true
            else if targetUrl.contains '*' then
              Except.ok (regexTest (urlPatternToRegex targetUrl) currentUrl)
            else Except.ok false

end ThemeEngineContent

namespace ThemeEngineContent

/-- A `<style>` element: its identity, whether it carries the
`data-theme-engine="true"` marker attribute, and its text content. -/
structure StyleNode where
  nodeId : Nat
  marked : Bool
  text : Str
  deriving DecidableEq, Repr

/-- The observable state of a page plus the `ThemeEngineContent`
instance controlling it: the style nodes in `document.head`, the
instance fields (`styleElement`, `currentCSS`, `isReady`), whether
`document.head` exists yet, the page URL, a counter of fresh node
identities, and a count of DOM mutations (node insertions/removals)
performed so far. -/
structure CState where
  page : List StyleNode
  styleElement : Option StyleNode
  currentCSS : Option Str
  isReady : Bool
  headAvail : Bool
  currentUrl : Str
  nextId : Nat
  mutCount : Nat
  deriving DecidableEq, Repr

/-- The marked style nodes present in the page. -/
def markedNodes (s : CState) : List StyleNode :=
  s.page.filter (fun n => n.marked)

/-- `removeCSS` (content.js lines 306-321): detach the held node if it
is in the document, then query for and detach every node carrying the
marker attribute, then clear `styleElement` and `currentCSS`. -/
def removeCSS (s : CState) : CState :=
  let heldGone :=
    match s.styleElement with
    | some n =>
      if s.page.contains n then
        { s with page := s.page.filter (fun m => m ≠ n),
                 mutCount := s.mutCount + 1 }
      else s
    | none => s
  { heldGone with
    page := heldGone.page.filter (fun n => !n.marked),
    mutCount := heldGone.mutCount + (heldGone.page.filter (fun n => n.marked)).length,
    styleElement := none,
    currentCSS := none }

/-- `insertStyleElement` (content.js lines 294-304): if the head is
available, append the held node and record its text as `currentCSS`;
otherwise the source re-arms a timer and nothing has happened yet when
the call returns (the retry is a later, separate event). -/
def insertStyleElement (s : CState) : CState :=
  if s.headAvail then
    match s.styleElement with
    | some n =>
      { s with page := s.page ++ [n],
               currentCSS := some n.text,
               mutCount := s.mutCount + 1 }
    | none => s
  else s

/-- `applyCSS` (content.js lines 262-292): falsy or non-string CSS is a
removal request (`none` models `null`/`undefined`); CSS equal to
`currentCSS` is a no-op; otherwise remove the old node, build a fresh
marked node holding the sanitized CSS, and insert it. -/
def applyCSS (s : CState) (css : Option Str) : CState :=
  match css with
  | none => removeCSS s
  | some c =>
    if c = [] then removeCSS s
    else if s.currentCSS = some c then s
    else
      let s1 := removeCSS s
      insertStyleElement
        { s1 with styleElement := some ⟨s1.nextId, true, sanitizeCSS c⟩,
                  nextId := s1.nextId + 1 }

/-- `getCurrentCSS` (content.js lines 420-422). -/
def getCurrentCSS (s : CState) : Option Str := s.currentCSS

/-- The persisted key-value storage as content.js reads it: `themes`
(possibly absent map from theme id to record), `currentThemeId`
(possibly absent) and `isEnabled` (absent collapses to the falsy
`false`). -/
structure Storage where
  themes : Option (List (Str × Theme))
  currentThemeId : Option Str
  isEnabled : Bool
  deriving DecidableEq, Repr

/-- The truthiness test `data.themes && data.currentThemeId &&
data.themes[data.currentThemeId]` together with the lookup itself:
returns the selected theme when every link in the chain is truthy. -/
def selectedTheme (st : Storage) : Option Theme :=
  match st.themes, st.currentThemeId with
  | some themes, some id => if id = [] then none else List.lookup id themes
  | _, _ => none

/-- `loadAndApplyCSS` (content.js lines 131-156): an invalid extension
context aborts; with storage enabled and a selected theme present, a
URL mismatch removes the CSS and a match applies the processed theme
CSS; any other storage shape does nothing. The `try`/`catch` swallows a
throw from the URL matcher, leaving the state unchanged. -/
def loadAndApplyCSS (s : CState) (st : Storage) (ctxValid : Bool) : CState :=
  if ctxValid then
    if st.isEnabled then
      match selectedTheme st with
      | some theme =>
        match shouldApplyThemeToCurrentURL s.currentUrl theme with
        | Except.error _ => s
        | Except.ok false => removeCSS s
        | Except.ok true => applyCSS s (some (processCSS theme.css))
      | none => s
    else s
  else s

/-- `checkAndApplyCSS` (content.js lines 158-179): read the persisted
state (an invalid context resolves to an empty record, whose
`isEnabled` is falsy); when disabled, remove; when enabled with a
selected theme whose pattern does not match, remove; otherwise apply
the message's CSS. A throw from the URL matcher is swallowed by the
`catch`, leaving the state unchanged. -/
def checkAndApplyCSS (s : CState) (st : Storage) (ctxValid : Bool)
    (css : Option Str) : CState :=
  let data := if ctxValid then st else ⟨none, none, false⟩
  if data.isEnabled then
    match selectedTheme data with
    | some theme =>
      match shouldApplyThemeToCurrentURL s.currentUrl theme with
      | Except.error _ => s
      | Except.ok false => removeCSS s
      | Except.ok true => applyCSS s css
    | none => applyCSS s css
  else removeCSS s

/-- An inbound runtime message, tagged by its `action` field. -/
inductive Message : Type
  | applyCSS (css : Option Str)
  | removeCSS
  | ping
  | unknown
  deriving DecidableEq, Repr

/-- The response delivered through `sendResponse`. -/
structure MsgResponse where
  success : Option Bool
  ready : Option Bool
  error : Option Str
  deriving DecidableEq, Repr

/-- The message listener (content.js lines 53-84): an invalid extension
context answers with an error and touches nothing; otherwise the
listener first marks the instance ready (`this.isReady = true`) and
then dispatches on the action, answering `ping` with
`{ success: true, ready: true }`. -/
def handleMessage (s : CState) (st : Storage) (ctxValid : Bool)
    (msg : Message) : CState × MsgResponse :=
  if ctxValid then
    let s' := { s with isReady := true }
    match msg with
    | Message.applyCSS css =>
      (checkAndApplyCSS s' st ctxValid css, ⟨some true, none, none⟩)
    | Message.removeCSS => (removeCSS s', ⟨some true, none, none⟩)
    | Message.ping => (s', ⟨some true, some true, none⟩)
    | Message.unknown => (s', ⟨none, none, some (str ("Unknown action"))⟩)
  else (s, ⟨none, none, some (str ("Extension context invalid"))⟩)

end ThemeEngineContent

namespace ThemeEngine

/-- The per-property step of the popup-side `addImportantToCSS`
(popup.js lines 484-495), transcribed from popup.js independently of
the content-script copy. -/
def addImportantProperty (property : Str) : Str :=
  let trimmedProperty := jsTrim property
  if trimmedProperty = [] then trimmedProperty
  else if jsIncludes (str ("!important")) trimmedProperty then trimmedProperty
  else trimmedProperty ++ str (" !important")

/-- The property pipeline of the popup-side `addImportantToCSS`
(popup.js lines 483-497). -/
def processProps (properties : Str) : Str :=
  jsJoin (str ("; "))
    (((jsSplit ';' properties).map addImportantProperty).filter
      (fun property => !property.isEmpty))

/-- The per-chunk step of the popup-side `addImportantToCSS`
(popup.js lines 470-500). -/
def processRule (rule : Str) : Str :=
  if jsTrim rule = [] then rule
  else
    match jsSplit openBrace rule with
    | [selPart, propPart] =>
      let selector := jsTrim selPart
      let properties := jsTrim propPart
      if properties = [] then rule
      else selector ++ str (" \x7b\n  ") ++ processProps properties ++ str ("\n\x7d")
    | _ => rule

/-- `ThemeEngine.addImportantToCSS` (popup.js lines 467-503), the
popup's copy of the importance injector. -/
def addImportantToCSS (css : Str) : Str :=
  jsJoin (str ("\n")) ((jsSplit closeBrace css).map processRule)

/-- The line classifier of the popup-side `processCSS` (popup.js lines
433-445). -/
def isVariableLine (line : Str) : Bool :=
  let trimmedLine := jsTrim line
  !trimmedLine.isEmpty && jsStartsWith (str ("--")) trimmedLine &&
    jsIncludes (str (":")) trimmedLine

/-- The `cssVariables` accumulator of the popup-side `processCSS`. -/
def cssVariableLines (lines : List Str) : List Str :=
  (lines.filter isVariableLine).map (fun line => str ("  ") ++ jsTrim line)

/-- The `otherCSS` accumulator of the popup-side `processCSS`. -/
def otherCSSLines (lines : List Str) : List Str :=
  lines.filter (fun line => !isVariableLine line)

/-- `ThemeEngine.processCSS` (popup.js lines 426-463), the popup's copy
of the raw-CSS-to-final-CSS transformation. -/
def processCSS (rawCSS : Str) : Str :=
  let lines := jsSplit '\n' rawCSS
  let cssVariables := cssVariableLines lines
  let processedCSS := addImportantToCSS (jsJoin (str ("\n")) (otherCSSLines lines))
  (if cssVariables.length > 0 then
    str (":root \x7b\n") ++ jsJoin (str ("\n")) cssVariables ++ str ("\n\x7d\n") ++
    str ("html, body \x7b\n") ++ jsJoin (str ("\n")) cssVariables ++ str ("\n\x7d\n\n")
  else []) ++
  (if jsTrim processedCSS = [] then [] else processedCSS)

end ThemeEngine

/-- The raw CSS of the spec's Example 1. -/
def exampleRawCSS : Str := str ("--primary: #007bff;\nbody \x7b color: red \x7d")

/-- A fresh page/controller state: empty head available at `url`, no
held node, not yet ready. -/
def initState (url : Str) : ThemeEngineContent.CState :=
  ⟨[], none, none, false, true, url, 0, 0⟩

namespace ThemeEngineContent

/-- The rule-injected remainder of `processCSS`: the non-declaration
lines rejoined and passed through `addImportantToCSS`. -/
def ruleInjectedRemainder (raw : Str) : Str :=
  addImportantToCSS (jsJoin (str ("\n")) (otherCSSLines (jsSplit '\n' raw)))

/-- The `:root` and `html, body` variable blocks `processCSS` emits
when declaration lines exist. -/
def variableBlocks (vars : List Str) : Str :=
  str (":root \x7b\n") ++ jsJoin (str ("\n")) vars ++ str ("\n\x7d\n") ++
  str ("html, body \x7b\n") ++ jsJoin (str ("\n")) vars ++ str ("\n\x7d\n\n")

end ThemeEngineContent

theorem filter_not_filter {α : Type} (p : α → Bool) (l : List α) :
    (l.filter (fun a => !p a)).filter p = [] := by
  induction l with
  | nil => rfl
  | cons a l ih => by_cases h : p a <;> simp [h, ih]

theorem markedNodes_removeCSS (s : ThemeEngineContent.CState) :
    ThemeEngineContent.markedNodes (ThemeEngineContent.removeCSS s) = [] := by
  unfold ThemeEngineContent.markedNodes ThemeEngineContent.removeCSS
  exact filter_not_filter _ _

theorem removeCSS_headAvail (s : ThemeEngineContent.CState) :
    (ThemeEngineContent.removeCSS s).headAvail = s.headAvail := by
  unfold ThemeEngineContent.removeCSS
  cases s.styleElement <;> simp <;> split <;> rfl

open ThemeEngineContent in
theorem insertStyleElement_eq (s : CState) (n : StyleNode)
    (hn : s.styleElement = some n) (h : s.headAvail = true) :
    insertStyleElement s =
      { s with page := s.page ++ [n], currentCSS := some n.text,
               mutCount := s.mutCount + 1 } := by
  unfold insertStyleElement
  simp [h, hn]

open ThemeEngineContent in
theorem applyCSS_fresh (s : CState) (css : Str) (h1 : css ≠ [])
    (h3 : s.headAvail = true) (h4 : s.currentCSS ≠ some css) :
    applyCSS s (some css) =
      { removeCSS s with
        styleElement := some ⟨(removeCSS s).nextId, true, sanitizeCSS css⟩,
        nextId := (removeCSS s).nextId + 1,
        page := (removeCSS s).page ++ [⟨(removeCSS s).nextId, true, sanitizeCSS css⟩],
        currentCSS := some (sanitizeCSS css),
        mutCount := (removeCSS s).mutCount + 1 } := by
  show (if css = [] then removeCSS s
    else if s.currentCSS = some css then s
    else insertStyleElement
      { removeCSS s with
        styleElement := some ⟨(removeCSS s).nextId, true, sanitizeCSS css⟩,
        nextId := (removeCSS s).nextId + 1 }) = _
  rw [if_neg h1, if_neg h4]
  rw [insertStyleElement_eq _ ⟨(removeCSS s).nextId, true, sanitizeCSS css⟩ rfl
    (by show (removeCSS s).headAvail = true; rw [removeCSS_headAvail]; exact h3)]

/-- C1: the claim says the URL matcher never throws and degrades to the
textual fallback on parse failures. In the source the fallback reads
`current`, which is scoped to the `try` block, so whenever the pattern
fails to parse and the page URL does not textually contain the pattern,
the call throws a `ReferenceError` instead of returning the fallback
verdict: here pattern `"a b"` (normalised to the unparsable
`https://a b`) against page `https://example.com/`. -/
theorem C1_matcher_throws_on_fallback :
    ThemeEngineContent.shouldApplyThemeToCurrentURL (str ("https://example.com/"))
      ⟨some (str ("a b")), []⟩ = Except.error JSError.referenceError ∧
    parseURL (str ("https://a b")) = none ∧
    jsIncludes (str ("a b")) (str ("https://example.com/")) = false := by
  decide

/-- C3: pattern `*://*.example.com/*` against page
`https://foo.example.com/x` matches, and it does so through the
wildcard-regex branch: the normalised pattern still parses as a URL
(host `*`), the exact-href and hostname branches all fail, and the
compiled case-insensitive wildcard regex accepts the full page URL. -/
theorem C3_wildcard_pattern_matches :
    ThemeEngineContent.shouldApplyThemeToCurrentURL
      (str ("https://foo.example.com/x"))
      ⟨some (str ("*://*.example.com/*")), []⟩ = Except.ok true ∧
    ThemeEngineContent.regexTest
      (ThemeEngineContent.urlPatternToRegex (str ("*://*.example.com/*")))
      (str ("https://foo.example.com/x")) = true ∧
    (parseURL (str ("https://*://*.example.com/*"))).map URLRec.hostname =
      some (str ("*")) ∧
    (parseURL (str ("https://foo.example.com/x"))).map URLRec.hostname =
      some (str ("foo.example.com")) := by
  decide

/-- C8: `apply('')` and `apply(null)` are literally `remove()`: both
fall into the falsy-CSS branch of `applyCSS`, and `removeCSS` detaches
the held node and every marked node and clears the held state. -/
theorem C8_apply_empty_is_remove (s : ThemeEngineContent.CState) :
    ThemeEngineContent.applyCSS s none = ThemeEngineContent.removeCSS s ∧
    ThemeEngineContent.applyCSS s (some []) = ThemeEngineContent.removeCSS s ∧
    (ThemeEngineContent.removeCSS s).styleElement = none ∧
    (ThemeEngineContent.removeCSS s).currentCSS = none ∧
    ThemeEngineContent.markedNodes (ThemeEngineContent.removeCSS s) = [] := by
  refine ⟨rfl, by simp [ThemeEngineContent.applyCSS], rfl, rfl,
    markedNodes_removeCSS s⟩

/-- C10: the content-script CSS transformation and the popup-side copy
are extensionally equal — the two transcriptions are the same function
on every input. -/
theorem C10_content_popup_pipelines_agree (css : Str) :
    ThemeEngineContent.processCSS css = ThemeEngine.processCSS css ∧
    ThemeEngineContent.addImportantToCSS css = ThemeEngine.addImportantToCSS css :=
  ⟨rfl, rfl⟩

/-- C4: the claim says a second `apply` with the same string is always
a no-op. But `applyCSS` compares the raw argument against the stored
`currentCSS`, which holds the *sanitized* text; for a string that
sanitization changes (here `" a"`, which trims to `"a"`), the equality
guard fails and the second call removes and re-inserts a node — the
mutation counter advances. -/
theorem C4_counterexample :
    (ThemeEngineContent.applyCSS
        (ThemeEngineContent.applyCSS (initState (str ("https://a.b/")))
          (some (str (" a"))))
        (some (str (" a")))).mutCount ≠
      (ThemeEngineContent.applyCSS (initState (str ("https://a.b/")))
          (some (str (" a")))).mutCount := by
  decide

/-- C4 amended: for non-empty CSS that sanitization leaves unchanged,
applied from a state not already holding it (head available), the
second identical `apply` is a strict no-op and exactly one marked style
node is in the page. -/
theorem C4_amended_idempotent_when_sanitize_fixed
    (s : ThemeEngineContent.CState) (css : Str) (h1 : css ≠ [])
    (h2 : ThemeEngineContent.sanitizeCSS css = css)
    (h3 : s.headAvail = true) (h4 : s.currentCSS ≠ some css) :
    ThemeEngineContent.applyCSS (ThemeEngineContent.applyCSS s (some css))
        (some css) = ThemeEngineContent.applyCSS s (some css) ∧
    (ThemeEngineContent.markedNodes
        (ThemeEngineContent.applyCSS s (some css))).length = 1 := by
  rw [applyCSS_fresh s css h1 h3 h4]
  constructor
  · show (if css = [] then _
      else if some (ThemeEngineContent.sanitizeCSS css) = some css then _
      else _) = _
    rw [if_neg h1, if_pos (by rw [h2])]
  · have hA := markedNodes_removeCSS s
    unfold ThemeEngineContent.markedNodes at hA ⊢
    simp [List.filter_append, hA]

/-- Closed witness for the amended C4 at `css = "a{b:c}"` from a fresh
state. -/
theorem C4_amended_witness :
    ((str ("a\x7bb:c\x7d") ≠ []) ∧
      ThemeEngineContent.sanitizeCSS (str ("a\x7bb:c\x7d")) = str ("a\x7bb:c\x7d") ∧
      (initState (str ("https://a.b/"))).headAvail = true ∧
      (initState (str ("https://a.b/"))).currentCSS ≠ some (str ("a\x7bb:c\x7d"))) ∧
    (ThemeEngineContent.applyCSS
        (ThemeEngineContent.applyCSS (initState (str ("https://a.b/")))
          (some (str ("a\x7bb:c\x7d")))) (some (str ("a\x7bb:c\x7d"))) =
      ThemeEngineContent.applyCSS (initState (str ("https://a.b/")))
        (some (str ("a\x7bb:c\x7d"))) ∧
    (ThemeEngineContent.markedNodes
        (ThemeEngineContent.applyCSS (initState (str ("https://a.b/")))
          (some (str ("a\x7bb:c\x7d"))))).length = 1) :=
  ⟨by decide,
    C4_amended_idempotent_when_sanitize_fixed (initState (str ("https://a.b/")))
      (str ("a\x7bb:c\x7d")) (by decide) (by decide) (by decide) (by decide)⟩

/-- C9: the claim says that after `apply(css)` with non-empty CSS (head
available) `currentCSS` always holds the sanitized form of `css`.
Sanitization is not idempotent (removing `javascript:` can splice a new
occurrence together), so a reachable state can hold a non-fixed-point
value: applying `"javajavascript:script:body"` stores
`"javascript:body"`, and then `apply("javascript:body")` hits the
equality guard and completes as a no-op, leaving
`currentCSS = "javascript:body"` even though the sanitized form of that
argument is `"body"`. -/
theorem C9_counterexample :
    ThemeEngineContent.getCurrentCSS
        (ThemeEngineContent.applyCSS
          (ThemeEngineContent.applyCSS (initState (str ("https://a.b/")))
            (some (str ("javajavascript:script:body"))))
          (some (str ("javascript:body")))) = some (str ("javascript:body")) ∧
    ThemeEngineContent.sanitizeCSS (str ("javascript:body")) = str ("body") ∧
    str ("javascript:body") ≠ str ("body") := by
  decide

/-- C9 amended: when the call is not short-circuited by the equality
guard (the state does not already hold exactly `css`), `apply(css)`
with non-empty `css` and an available head leaves `currentCSS` holding
the sanitized form of `css`, which differs from the argument whenever
sanitization modified it. -/
theorem C9_amended_currentCSS_is_sanitized
    (s : ThemeEngineContent.CState) (css : Str) (h1 : css ≠ [])
    (h3 : s.headAvail = true) (h4 : s.currentCSS ≠ some css) :
    ThemeEngineContent.getCurrentCSS (ThemeEngineContent.applyCSS s (some css)) =
      some (ThemeEngineContent.sanitizeCSS css) ∧
    (ThemeEngineContent.sanitizeCSS css ≠ css →
      ThemeEngineContent.getCurrentCSS (ThemeEngineContent.applyCSS s (some css)) ≠
        some css) := by
  rw [applyCSS_fresh s css h1 h3 h4]
  refine ⟨rfl, fun hne hcontra => hne ?_⟩
  simpa [ThemeEngineContent.getCurrentCSS] using hcontra

/-- Closed witness for the amended C9 at `css = " a"` (sanitization
trims it to `"a"`) from a fresh state. -/
theorem C9_amended_witness :
    ((str (" a") ≠ []) ∧ (initState (str ("https://a.b/"))).headAvail = true ∧
      (initState (str ("https://a.b/"))).currentCSS ≠ some (str (" a"))) ∧
    (ThemeEngineContent.getCurrentCSS
        (ThemeEngineContent.applyCSS (initState (str ("https://a.b/")))
          (some (str (" a")))) =
      some (ThemeEngineContent.sanitizeCSS (str (" a"))) ∧
    (ThemeEngineContent.sanitizeCSS (str (" a")) ≠ str (" a") →
      ThemeEngineContent.getCurrentCSS
          (ThemeEngineContent.applyCSS (initState (str ("https://a.b/")))
            (some (str (" a")))) ≠ some (str (" a")))) :=
  ⟨by decide,
    C9_amended_currentCSS_is_sanitized (initState (str ("https://a.b/")))
      (str (" a")) (by decide) (by decide) (by decide)⟩

/-- C2: the claim says every persisted-state-read evaluation removes
the CSS when the Enabled Flag is false. The `loadAndApplyCSS` path
(initial load, theme/selection changes, `lastApplied` changes) does
not: with `isEnabled = false` its guard simply fails and the function
returns without calling `removeCSS`, so a marked style node already in
the page survives the evaluation. -/
theorem C2_counterexample :
    ThemeEngineContent.loadAndApplyCSS
        ⟨[⟨0, true, str ("x")⟩], none, none, false, true, str ("https://a.b/"), 1, 0⟩
        ⟨none, none, false⟩ true =
      ⟨[⟨0, true, str ("x")⟩], none, none, false, true, str ("https://a.b/"), 1, 0⟩ ∧
    ThemeEngineContent.markedNodes
        ⟨[⟨0, true, str ("x")⟩], none, none, false, true, str ("https://a.b/"), 1, 0⟩ ≠
      [] ∧
    (⟨none, none, false⟩ : ThemeEngineContent.Storage).isEnabled = false := by
  decide

/-- C2 amended: with the Enabled Flag false, an inbound `applyCSS`
message evaluation (`checkAndApplyCSS`) calls `remove()`, leaving no
marked style node; a `loadAndApplyCSS`-triggered evaluation returns
with the page state untouched (in particular it adds nothing), so a
marked node is absent afterwards only if it was absent before. -/
theorem C2_amended_disabled_behaviour
    (s : ThemeEngineContent.CState) (st : ThemeEngineContent.Storage)
    (css : Option Str) (h : st.isEnabled = false) :
    ThemeEngineContent.checkAndApplyCSS s st true css =
      ThemeEngineContent.removeCSS s ∧
    ThemeEngineContent.loadAndApplyCSS s st true = s ∧
    ThemeEngineContent.markedNodes (ThemeEngineContent.removeCSS s) = [] := by
  refine ⟨?_, ?_, markedNodes_removeCSS s⟩
  · unfold ThemeEngineContent.checkAndApplyCSS
    simp [h]
  · unfold ThemeEngineContent.loadAndApplyCSS
    simp [h]

/-- Closed witness for the amended C2 with a disabled storage record
and a state already holding a marked node. -/
theorem C2_amended_witness :
    ((⟨none, none, false⟩ : ThemeEngineContent.Storage).isEnabled = false) ∧
    (ThemeEngineContent.checkAndApplyCSS
        ⟨[⟨0, true, str ("x")⟩], none, none, false, true, str ("https://a.b/"), 1, 0⟩
        ⟨none, none, false⟩ true none =
      ThemeEngineContent.removeCSS
        ⟨[⟨0, true, str ("x")⟩], none, none, false, true, str ("https://a.b/"), 1, 0⟩ ∧
    ThemeEngineContent.loadAndApplyCSS
        ⟨[⟨0, true, str ("x")⟩], none, none, false, true, str ("https://a.b/"), 1, 0⟩
        ⟨none, none, false⟩ true =
      ⟨[⟨0, true, str ("x")⟩], none, none, false, true, str ("https://a.b/"), 1, 0⟩ ∧
    ThemeEngineContent.markedNodes
        (ThemeEngineContent.removeCSS
          ⟨[⟨0, true, str ("x")⟩], none, none, false, true, str ("https://a.b/"), 1, 0⟩) =
      []) :=
  ⟨rfl,
    C2_amended_disabled_behaviour
      ⟨[⟨0, true, str ("x")⟩], none, none, false, true, str ("https://a.b/"), 1, 0⟩
      ⟨none, none, false⟩ none rfl⟩

/-- C6: the claim says handling a ping changes no field of the
controller's state. But the listener marks the instance ready before
dispatching, so a ping received by a not-yet-ready controller flips
`isReady` from `false` to `true`. -/
theorem C6_counterexample :
    ((ThemeEngineContent.handleMessage (initState (str ("https://a.b/")))
          ⟨none, none, false⟩ true ThemeEngineContent.Message.ping).1.isReady = true) ∧
    (initState (str ("https://a.b/"))).isReady = false := by
  decide

/-- C6 amended: with a valid extension context, a ping is answered with
`{ success: true, ready: true }` and the only state change is the
readiness flag being set (as happens for every inbound message); the
page, the injector fields and the DOM are untouched. -/
theorem C6_amended_ping_response
    (s : ThemeEngineContent.CState) (st : ThemeEngineContent.Storage) :
    ThemeEngineContent.handleMessage s st true ThemeEngineContent.Message.ping =
      ({ s with isReady := true }, ⟨some true, some true, none⟩) :=
  rfl

/-- C5: the claim says that with no declaration lines the output is the
rule-injected remainder alone. For the whitespace-only input `" "`
there are no declaration lines and the rule-injected remainder is `" "`
itself, but `processCSS` drops a remainder that trims to blank and
returns the empty string. -/
theorem C5_counterexample :
    ThemeEngineContent.processCSS (str (" ")) ≠
      ThemeEngineContent.ruleInjectedRemainder (str (" ")) ∧
    ThemeEngineContent.cssVariableLines (jsSplit '\n' (str (" "))) = [] ∧
    ThemeEngineContent.processCSS (str (" ")) = [] ∧
    ThemeEngineContent.ruleInjectedRemainder (str (" ")) = str (" ") := by
  decide

/-- C5 amended: the Example 1 transform contains the `:root` block, the
`html, body` block and the `!important`-injected body rule, and in
general the output is the variable blocks (when declaration lines
exist) followed by the rule-injected remainder — except that a
remainder that trims to blank is omitted (so with no declarations and a
blank remainder the output is empty). -/
theorem C5_amended_assembly :
    (jsIncludes (str (":root \x7b\n  --primary: #007bff;\n\x7d"))
        (ThemeEngineContent.processCSS exampleRawCSS) = true ∧
      jsIncludes (str ("html, body \x7b\n  --primary: #007bff;\n\x7d"))
        (ThemeEngineContent.processCSS exampleRawCSS) = true ∧
      jsIncludes (str ("body \x7b\n  color: red !important\n\x7d"))
        (ThemeEngineContent.processCSS exampleRawCSS) = true) ∧
    (∀ raw : Str,
      ThemeEngineContent.processCSS raw =
        (if ThemeEngineContent.cssVariableLines (jsSplit '\n' raw) = [] then []
         else ThemeEngineContent.variableBlocks
            (ThemeEngineContent.cssVariableLines (jsSplit '\n' raw))) ++
        (if jsTrim (ThemeEngineContent.ruleInjectedRemainder raw) = [] then []
         else ThemeEngineContent.ruleInjectedRemainder raw)) := by
  refine ⟨by decide, fun raw => ?_⟩
  unfold ThemeEngineContent.processCSS ThemeEngineContent.ruleInjectedRemainder
    ThemeEngineContent.variableBlocks
  rcases h : ThemeEngineContent.cssVariableLines (jsSplit '\n' raw) with _ | ⟨v, vs⟩ <;>
    simp [h]

theorem jsSplit_ne_nil (c : Char) (l : Str) : jsSplit c l ≠ [] := by
  induction l with
  | nil => simp [jsSplit]
  | cons a l ih =>
    by_cases h : a = c
    · simp [jsSplit, h]
    · simp only [jsSplit, if_neg h]
      cases hs : jsSplit c l with
      | nil => exact absurd hs ih
      | cons g gs => simp [consHead]

theorem jsSplit_cons_ne {a c : Char} (l : Str) (h : a ≠ c) :
    jsSplit c (a :: l) = consHead a (jsSplit c l) := by
  simp [jsSplit, h]

theorem jsSplit_of_not_mem {c : Char} {l : Str} (h : c ∉ l) : jsSplit c l = [l] := by
  induction l with
  | nil => rfl
  | cons a l ih =>
    have ha : a ≠ c := fun he => h (he ▸ List.mem_cons_self a l)
    have hl : c ∉ l := fun hm => h (List.mem_cons_of_mem a hm)
    rw [jsSplit_cons_ne l ha, ih hl]
    rfl

theorem jsSplit_append_sep {c : Char} {l : Str} (r : Str) (h : c ∉ l) :
    jsSplit c (l ++ c :: r) = l :: jsSplit c r := by
  induction l with
  | nil => simp [jsSplit]
  | cons a l ih =>
    have ha : a ≠ c := fun he => h (he ▸ List.mem_cons_self a l)
    have hl : c ∉ l := fun hm => h (List.mem_cons_of_mem a hm)
    rw [List.cons_append, jsSplit_cons_ne _ ha, ih hl]
    rfl

theorem mem_of_mem_jsSplit {c : Char} {l : Str} {u : Str} (hu : u ∈ jsSplit c l) :
    ∀ a ∈ u, a ∈ l := by
  induction l generalizing u with
  | nil =>
    simp [jsSplit] at hu
    simp [hu]
  | cons b l ih =>
    by_cases hb : b = c
    · rw [hb] at hu ⊢
      rw [show jsSplit c (c :: l) = [] :: jsSplit c l from by simp [jsSplit]] at hu
      rcases List.mem_cons.mp hu with h1 | h2
      · simp [h1]
      · exact fun a ha => List.mem_cons_of_mem _ (ih h2 a ha)
    · rw [jsSplit_cons_ne _ hb] at hu
      cases hs : jsSplit c l with
      | nil => exact absurd hs (jsSplit_ne_nil c l)
      | cons g gs =>
        rw [hs] at hu
        rcases List.mem_cons.mp hu with h1 | h2
        · subst h1
          intro a ha
          rcases List.mem_cons.mp ha with h | h
          · simp [h]
          · exact List.mem_cons_of_mem _ (ih (hs ▸ List.mem_cons_self g gs) a h)
        · exact fun a ha => List.mem_cons_of_mem _ (ih (hs ▸ List.mem_cons_of_mem g h2) a ha)

theorem not_mem_jsSplit {c : Char} {l : Str} {u : Str} (hu : u ∈ jsSplit c l) :
    c ∉ u := by
  induction l generalizing u with
  | nil =>
    simp [jsSplit] at hu
    simp [hu]
  | cons b l ih =>
    by_cases hb : b = c
    · rw [hb] at hu
      rw [show jsSplit c (c :: l) = [] :: jsSplit c l from by simp [jsSplit]] at hu
      rcases List.mem_cons.mp hu with h1 | h2
      · simp [h1]
      · exact ih h2
    · rw [jsSplit_cons_ne _ hb] at hu
      cases hs : jsSplit c l with
      | nil => exact absurd hs (jsSplit_ne_nil c l)
      | cons g gs =>
        rw [hs] at hu
        rcases List.mem_cons.mp hu with h1 | h2
        · subst h1
          intro hc
          rcases List.mem_cons.mp hc with h | h
          · exact hb h.symm
          · exact ih (hs ▸ List.mem_cons_self g gs) h
        · exact ih (hs ▸ List.mem_cons_of_mem g h2)

theorem jsJoin_cons (sep x : Str) (xs : List Str) (h : xs ≠ []) :
    jsJoin sep (x :: xs) = x ++ sep ++ jsJoin sep xs := by
  cases xs with
  | nil => exact absurd rfl h
  | cons y ys => rfl

theorem mem_of_mem_jsJoin {sep : Str} {L : List Str} {a : Char}
    (ha : a ∈ jsJoin sep L) : a ∈ sep ∨ ∃ u ∈ L, a ∈ u := by
  induction L with
  | nil => simp [jsJoin] at ha
  | cons x xs ih =>
    cases xs with
    | nil =>
      refine Or.inr ⟨x, List.mem_cons_self x [], ?_⟩
      simpa [jsJoin] using ha
    | cons y ys =>
      rw [jsJoin_cons sep x (y :: ys) (by simp)] at ha
      rcases List.mem_append.mp ha with h1 | h2
      · rcases List.mem_append.mp h1 with h3 | h4
        · exact Or.inr ⟨x, List.mem_cons_self x _, h3⟩
        · exact Or.inl h4
      · rcases ih h2 with h3 | ⟨u, hu, hau⟩
        · exact Or.inl h3
        · exact Or.inr ⟨u, List.mem_cons_of_mem x hu, hau⟩

theorem jsStartsWith_self (l : Str) : jsStartsWith l l = true := by
  induction l with
  | nil => rfl
  | cons a l ih => simp [jsStartsWith, ih]

theorem jsIncludes_self (pat : Str) : jsIncludes pat pat = true := by
  cases pat with
  | nil => rfl
  | cons a l => simp [jsIncludes, jsStartsWith_self]

theorem jsIncludes_append_left {pat : Str} (l : Str) {m : Str}
    (h : jsIncludes pat m = true) : jsIncludes pat (l ++ m) = true := by
  induction l with
  | nil => simpa using h
  | cons a l ih =>
    cases pat with
    | nil => rfl
    | cons p ps => simp [jsIncludes, ih]

theorem trimStart_cons_ws {a : Char} (l : Str) (h : isJSWS a = true) :
    trimStart (a :: l) = trimStart l := by
  simp [trimStart, List.dropWhile_cons, h]

theorem trimStart_cons_neg {a : Char} (l : Str) (h : isJSWS a = false) :
    trimStart (a :: l) = a :: l := by
  simp [trimStart, List.dropWhile_cons, h]

theorem dropWhile_all_append {p : Char → Bool} {w : Str} (l : Str)
    (h : ∀ a ∈ w, p a = true) : List.dropWhile p (w ++ l) = List.dropWhile p l := by
  induction w with
  | nil => rfl
  | cons a w ih =>
    rw [List.cons_append, List.dropWhile_cons, if_pos (h a (List.mem_cons_self a w))]
    exact ih (fun b hb => h b (List.mem_cons_of_mem a hb))

theorem trimEnd_eq_rdropWhile (l : Str) : trimEnd l = List.rdropWhile isJSWS l := rfl

theorem trimEnd_concat_neg {b : Char} (l : Str) (h : isJSWS b = false) :
    trimEnd (l ++ [b]) = l ++ [b] := by
  rw [trimEnd_eq_rdropWhile]
  exact List.rdropWhile_concat_neg _ _ _ (by simp [h])

theorem trimEnd_append_ws {w : Str} (l : Str) (h : ∀ a ∈ w, isJSWS a = true) :
    trimEnd (l ++ w) = trimEnd l := by
  unfold trimEnd
  rw [List.reverse_append, dropWhile_all_append _ (fun a ha => h a (List.mem_reverse.mp ha))]

theorem trimEnd_cons_neg {a : Char} (l : Str) (h : isJSWS a = false) :
    trimEnd (a :: l) = a :: trimEnd l := by
  unfold trimEnd
  rw [List.reverse_cons, List.dropWhile_append]
  by_cases he : (List.dropWhile isJSWS l.reverse).isEmpty
  · rw [if_pos he]
    simp only [List.isEmpty_iff] at he
    simp [he, List.dropWhile_cons, h]
  · rw [if_neg he]
    simp

theorem trimStart_idem (l : Str) : trimStart (trimStart l) = trimStart l := by
  unfold trimStart
  exact List.dropWhile_idempotent isJSWS l

theorem trimEnd_idem (l : Str) : trimEnd (trimEnd l) = trimEnd l :=
  List.rdropWhile_idempotent _ _

theorem dropWhile_eq_cons_head {p : Char → Bool} {l : Str} {a : Char} {t : Str}
    (h : List.dropWhile p l = a :: t) : p a = false := by
  induction l with
  | nil => simp at h
  | cons b l ih =>
    rw [List.dropWhile_cons] at h
    by_cases hb : p b = true
    · rw [if_pos hb] at h
      exact ih h
    · rw [if_neg hb] at h
      cases h
      simpa using hb

theorem trimStart_head_shape {l : Str} (h : trimStart l ≠ []) :
    ∃ a t, trimStart l = a :: t ∧ isJSWS a = false := by
  cases hs : trimStart l with
  | nil => exact absurd hs h
  | cons a t => exact ⟨a, t, rfl, dropWhile_eq_cons_head hs⟩

theorem jsTrim_head_shape {l : Str} (h : jsTrim l ≠ []) :
    ∃ a t, jsTrim l = a :: t ∧ isJSWS a = false := by
  unfold jsTrim at h ⊢
  have hv : trimStart l ≠ [] := by
    intro he
    rw [he] at h
    exact h rfl
  obtain ⟨a, t, hat, ha⟩ := trimStart_head_shape hv
  rw [hat, trimEnd_cons_neg t ha]
  exact ⟨a, trimEnd t, rfl, ha⟩

theorem jsTrim_last_shape {l : Str} (h : jsTrim l ≠ []) :
    ∃ m b, jsTrim l = m ++ [b] ∧ isJSWS b = false := by
  unfold jsTrim at h ⊢
  unfold trimEnd at h ⊢
  cases hs : List.dropWhile isJSWS (trimStart l).reverse with
  | nil => rw [hs] at h; exact absurd rfl h
  | cons b t =>
    exact ⟨t.reverse, b, by simp, dropWhile_eq_cons_head hs⟩

theorem jsTrim_cons_ws {a : Char} (l : Str) (h : isJSWS a = true) :
    jsTrim (a :: l) = jsTrim l := by
  unfold jsTrim
  rw [trimStart_cons_ws l h]

theorem trimStart_jsTrim (l : Str) : trimStart (jsTrim l) = jsTrim l := by
  by_cases h : jsTrim l = []
  · rw [h]; rfl
  · obtain ⟨a, t, hat, ha⟩ := jsTrim_head_shape h
    rw [hat, trimStart_cons_neg t ha]

theorem trimEnd_jsTrim (l : Str) : trimEnd (jsTrim l) = jsTrim l := by
  unfold jsTrim
  exact trimEnd_idem (trimStart l)

theorem jsTrim_idem (l : Str) : jsTrim (jsTrim l) = jsTrim l := by
  show trimEnd (trimStart (jsTrim l)) = jsTrim l
  rw [trimStart_jsTrim, trimEnd_jsTrim]

theorem jsTrim_shape_fix {a b : Char} (m : Str) (ha : isJSWS a = false)
    (hb : isJSWS b = false) : jsTrim (a :: (m ++ [b])) = a :: (m ++ [b]) := by
  unfold jsTrim
  rw [trimStart_cons_neg _ ha, show a :: (m ++ [b]) = (a :: m) ++ [b] from rfl,
    trimEnd_concat_neg _ hb]

theorem jsTrim_append_trailing {p : Str} (h : jsTrim p ≠ []) (m : Str) {b : Char}
    (hb : isJSWS b = false) :
    jsTrim (jsTrim p ++ (m ++ [b])) = jsTrim p ++ (m ++ [b]) := by
  obtain ⟨a, t, hat, ha⟩ := jsTrim_head_shape h
  rw [hat, show (a :: t) ++ (m ++ [b]) = a :: ((t ++ m) ++ [b]) from by simp,
    jsTrim_shape_fix _ ha hb]

theorem jsTrim_append_space (p : Str) :
    jsTrim (jsTrim p ++ [' ']) = jsTrim p := by
  by_cases h : jsTrim p = []
  · rw [h]
    decide
  · obtain ⟨a, t, hat, ha⟩ := jsTrim_head_shape h
    have h1 : trimStart (jsTrim p ++ [' ']) = jsTrim p ++ [' '] := by
      rw [hat, show (a :: t) ++ [' '] = a :: (t ++ [' ']) from rfl, trimStart_cons_neg _ ha]
    have h2 : trimEnd (jsTrim p ++ [' ']) = jsTrim p := by
      rw [trimEnd_append_ws (jsTrim p) (by intro x hx; simp at hx; rw [hx]; decide),
        trimEnd_jsTrim]
    show trimEnd (trimStart (jsTrim p ++ [' '])) = jsTrim p
    rw [h1, h2]

theorem mem_of_mem_jsTrim {l : Str} {a : Char} (h : a ∈ jsTrim l) : a ∈ l := by
  unfold jsTrim trimEnd trimStart at h
  have h1 : a ∈ List.dropWhile isJSWS (List.dropWhile isJSWS l).reverse := by
    simpa using h
  have h2 : a ∈ (List.dropWhile isJSWS l).reverse :=
    (List.dropWhile_suffix isJSWS).subset h1
  have h3 : a ∈ List.dropWhile isJSWS l := List.mem_reverse.mp h2
  exact (List.dropWhile_suffix isJSWS).subset h3

theorem mem_dropWhile_of_neg {p : Char → Bool} {l : Str} {a : Char}
    (hm : a ∈ l) (ha : p a = false) : a ∈ List.dropWhile p l := by
  induction l with
  | nil => simp at hm
  | cons b l ih =>
    rw [List.dropWhile_cons]
    by_cases hb : p b = true
    · rw [if_pos hb]
      rcases List.mem_cons.mp hm with h1 | h2
      · subst h1
        rw [hb] at ha
        simp at ha
      · exact ih h2
    · rw [if_neg hb]
      exact hm

theorem jsTrim_ne_nil_of_mem {l : Str} {a : Char} (hm : a ∈ l)
    (ha : isJSWS a = false) : jsTrim l ≠ [] := by
  unfold jsTrim trimEnd trimStart
  intro he
  have h1 : a ∈ List.dropWhile isJSWS l := mem_dropWhile_of_neg hm ha
  have h2 : a ∈ (List.dropWhile isJSWS l).reverse := List.mem_reverse.mpr h1
  have h3 : a ∈ List.dropWhile isJSWS (List.dropWhile isJSWS l).reverse :=
    mem_dropWhile_of_neg h2 ha
  rw [List.reverse_eq_nil_iff] at he
  rw [he] at h3
  simp at h3

theorem imp_split : str (" !important") = str (" !importan") ++ ['t'] := by decide

open ThemeEngineContent in
theorem aip_nil : addImportantProperty [] = [] := rfl

open ThemeEngineContent in
theorem aip_of_trim_nil {p : Str} (h : jsTrim p = []) :
    addImportantProperty p = [] := by
  unfold addImportantProperty
  simp [h]

open ThemeEngineContent in
theorem aip_of_includes {p : Str} (h1 : jsTrim p ≠ [])
    (h2 : jsIncludes (str ("!important")) (jsTrim p) = true) :
    addImportantProperty p = jsTrim p := by
  unfold addImportantProperty
  simp [h1, h2]

open ThemeEngineContent in
theorem aip_of_not_includes {p : Str} (h1 : jsTrim p ≠ [])
    (h2 : jsIncludes (str ("!important")) (jsTrim p) = false) :
    addImportantProperty p = jsTrim p ++ str (" !important") := by
  unfold addImportantProperty
  simp [h1, h2]

open ThemeEngineContent in
theorem aip_trim_fix (p : Str) :
    jsTrim (addImportantProperty p) = addImportantProperty p := by
  by_cases h1 : jsTrim p = []
  · rw [aip_of_trim_nil h1]
    rfl
  · by_cases h2 : jsIncludes (str ("!important")) (jsTrim p) = true
    · rw [aip_of_includes h1 h2]
      exact jsTrim_idem p
    · rw [aip_of_not_includes h1 (by simpa using h2), imp_split]
      exact jsTrim_append_trailing h1 (str (" !importan")) (by decide)

open ThemeEngineContent in
theorem aip_includes (p : Str) (h : addImportantProperty p ≠ []) :
    jsIncludes (str ("!important")) (addImportantProperty p) = true := by
  by_cases h1 : jsTrim p = []
  · exact absurd (aip_of_trim_nil h1) h
  · by_cases h2 : jsIncludes (str ("!important")) (jsTrim p) = true
    · rw [aip_of_includes h1 h2]
      exact h2
    · rw [aip_of_not_includes h1 (by simpa using h2)]
      refine jsIncludes_append_left (jsTrim p) ?_
      rw [show str (" !important") = [' '] ++ str ("!important") from by decide]
      exact jsIncludes_append_left [' '] (jsIncludes_self _)

open ThemeEngineContent in
theorem aip_ne_nil {p : Str} (h : jsTrim p ≠ []) : addImportantProperty p ≠ [] := by
  by_cases h2 : jsIncludes (str ("!important")) (jsTrim p) = true
  · rw [aip_of_includes h h2]
    exact h
  · rw [aip_of_not_includes h (by simpa using h2)]
    intro hc
    have h3 := List.append_eq_nil.mp hc
    exact absurd h3.2 (by decide)

open ThemeEngineContent in
theorem mem_aip {p : Str} {a : Char} (h : a ∈ addImportantProperty p) :
    a ∈ p ∨ a ∈ str (" !important") := by
  by_cases h1 : jsTrim p = []
  · rw [aip_of_trim_nil h1] at h
    simp at h
  · by_cases h2 : jsIncludes (str ("!important")) (jsTrim p) = true
    · rw [aip_of_includes h1 h2] at h
      exact Or.inl (mem_of_mem_jsTrim h)
    · rw [aip_of_not_includes h1 (by simpa using h2)] at h
      rcases List.mem_append.mp h with h3 | h4
      · exact Or.inl (mem_of_mem_jsTrim h3)
      · exact Or.inr h4

open ThemeEngineContent in
theorem aip_idem (p : Str) :
    addImportantProperty (addImportantProperty p) = addImportantProperty p := by
  by_cases h1 : jsTrim p = []
  · rw [aip_of_trim_nil h1, aip_nil]
  · have hne := aip_ne_nil h1
    have hfix := aip_trim_fix p
    have hinc := aip_includes p hne
    rw [aip_of_includes (by rw [hfix]; exact hne) (by rw [hfix]; exact hinc), hfix]

open ThemeEngineContent in
theorem aip_of_fix {q : Str} (hfix : jsTrim q = q) (hne : q ≠ [])
    (hinc : jsIncludes (str ("!important")) q = true) :
    addImportantProperty q = q := by
  rw [aip_of_includes (by rw [hfix]; exact hne) (by rw [hfix]; exact hinc), hfix]

open ThemeEngineContent in
theorem aip_cons_space_of_fix {q : Str} (hfix : jsTrim q = q) (hne : q ≠ [])
    (hinc : jsIncludes (str ("!important")) q = true) :
    addImportantProperty (' ' :: q) = q := by
  have ht : jsTrim (' ' :: q) = q := by
    rw [jsTrim_cons_ws q (by decide), hfix]
  unfold addImportantProperty
  simp [ht, hne, hinc]

theorem jsSplit_join_semicolon (q : Str) (rest : List Str)
    (hq : (';' : Char) ∉ q) (hrest : ∀ r ∈ rest, (';' : Char) ∉ r) :
    jsSplit ';' (jsJoin (str ("; ")) (q :: rest)) =
      q :: rest.map (fun r => ' ' :: r) := by
  induction rest generalizing q with
  | nil => simpa [jsJoin] using jsSplit_of_not_mem hq
  | cons r rest ih =>
    rw [jsJoin_cons _ _ _ (by simp),
      show q ++ str ("; ") ++ jsJoin (str ("; ")) (r :: rest) =
        q ++ ';' :: (' ' :: jsJoin (str ("; ")) (r :: rest)) from by simp [str],
      jsSplit_append_sep _ hq,
      jsSplit_cons_ne _ (by decide),
      ih r (hrest r (List.mem_cons_self r rest))
        (fun x hx => hrest x (List.mem_cons_of_mem r hx))]
    rfl

open ThemeEngineContent in
theorem processProps_nil : processProps [] = [] := rfl

open ThemeEngineContent in
theorem processProps_join_fix (qs : List Str)
    (h : ∀ q ∈ qs, jsTrim q = q ∧ q ≠ [] ∧ (';' : Char) ∉ q ∧
      jsIncludes (str ("!important")) q = true) :
    processProps (jsJoin (str ("; ")) qs) = jsJoin (str ("; ")) qs := by
  cases qs with
  | nil => rfl
  | cons q rest =>
    obtain ⟨hfix, hne, hsc, hinc⟩ := h q (List.mem_cons_self q rest)
    unfold processProps
    rw [jsSplit_join_semicolon q rest hsc
      (fun r hr => (h r (List.mem_cons_of_mem q hr)).2.2.1)]
    have hmap : (q :: rest.map (fun r => ' ' :: r)).map addImportantProperty =
        q :: rest := by
      rw [List.map_cons, aip_of_fix hfix hne hinc, List.map_map]
      congr 1
      refine List.map_congr_left ?_ |>.trans (List.map_id rest)
      intro r hr
      obtain ⟨hfr, hnr, _, hir⟩ := h r (List.mem_cons_of_mem q hr)
      exact aip_cons_space_of_fix hfr hnr hir
    rw [hmap]
    rw [List.filter_eq_self.mpr]
    intro r hr
    rcases List.mem_cons.mp hr with h1 | h2
    · subst h1
      simpa using hne
    · simpa using (h r (List.mem_cons_of_mem q h2)).2.1

open ThemeEngineContent in
theorem processProps_members_good (B : Str) :
    ∀ q ∈ ((jsSplit ';' B).map addImportantProperty).filter
      (fun property => !property.isEmpty),
      jsTrim q = q ∧ q ≠ [] ∧ (';' : Char) ∉ q ∧
        jsIncludes (str ("!important")) q = true := by
  intro q hq
  obtain ⟨hmem, hne⟩ := List.mem_filter.mp hq
  obtain ⟨p, hp, hqp⟩ := List.mem_map.mp hmem
  subst hqp
  have hne' : addImportantProperty p ≠ [] := by simpa using hne
  refine ⟨aip_trim_fix p, hne', ?_, aip_includes p hne'⟩
  intro hsc
  rcases mem_aip hsc with h1 | h2
  · exact not_mem_jsSplit hp h1
  · simp [str] at h2

open ThemeEngineContent in
theorem processProps_idem (B : Str) :
    processProps (processProps B) = processProps B := by
  conv_lhs => rw [show processProps B = jsJoin (str ("; "))
    (((jsSplit ';' B).map addImportantProperty).filter
      (fun property => !property.isEmpty)) from rfl]
  exact processProps_join_fix _ (processProps_members_good B)

open ThemeEngineContent in
theorem mem_processProps {B : Str} {a : Char} (h : a ∈ processProps B) :
    a ∈ B ∨ a ∈ str ("; ") ∨ a ∈ str (" !important") := by
  rcases mem_of_mem_jsJoin h with h1 | ⟨u, hu, hau⟩
  · exact Or.inr (Or.inl h1)
  · obtain ⟨hmem, _⟩ := List.mem_filter.mp hu
    obtain ⟨p, hp, hup⟩ := List.mem_map.mp hmem
    subst hup
    rcases mem_aip hau with h2 | h3
    · exact Or.inl (mem_of_mem_jsSplit hp a h2)
    · exact Or.inr (Or.inr h3)

open ThemeEngineContent in
theorem jsJoin_last_shape (qs : List Str) (hne : qs ≠ [])
    (h : ∀ q ∈ qs, ∃ m b, q = m ++ [b] ∧ isJSWS b = false) :
    ∃ m b, jsJoin (str ("; ")) qs = m ++ [b] ∧ isJSWS b = false := by
  induction qs with
  | nil => exact absurd rfl hne
  | cons q rest ih =>
    cases rest with
    | nil =>
      obtain ⟨m, b, hq, hb⟩ := h q (List.mem_cons_self q [])
      exact ⟨m, b, by simpa [jsJoin] using hq, hb⟩
    | cons r rest' =>
      obtain ⟨m, b, hj, hb⟩ := ih (by simp)
        (fun x hx => h x (List.mem_cons_of_mem q hx))
      refine ⟨q ++ str ("; ") ++ m, b, ?_, hb⟩
      rw [jsJoin_cons _ _ _ (by simp), hj]
      simp

open ThemeEngineContent in
theorem processProps_head_shape {B : Str} (h : processProps B ≠ []) :
    ∃ a t, processProps B = a :: t ∧ isJSWS a = false := by
  rcases hqs : ((jsSplit ';' B).map addImportantProperty).filter
      (fun property => !property.isEmpty) with _ | ⟨q, rest⟩
  · exact absurd (by rw [show processProps B = jsJoin (str ("; "))
      (((jsSplit ';' B).map addImportantProperty).filter
        (fun property => !property.isEmpty)) from rfl, hqs]; rfl) h
  · have hgood := processProps_members_good B
    rw [hqs] at hgood
    obtain ⟨hfix, hne, _, _⟩ := hgood q (List.mem_cons_self q rest)
    obtain ⟨a, t, hq, ha⟩ := jsTrim_head_shape (by rw [hfix]; exact hne)
    rw [hfix] at hq
    refine ⟨a, t ++ (if rest = [] then [] else str ("; ") ++
      jsJoin (str ("; ")) rest), ?_, ha⟩
    rw [show processProps B = jsJoin (str ("; "))
      (((jsSplit ';' B).map addImportantProperty).filter
        (fun property => !property.isEmpty)) from rfl, hqs]
    cases rest with
    | nil => simpa [jsJoin] using hq
    | cons r rest' =>
      rw [jsJoin_cons _ _ _ (by simp), hq]
      simp

open ThemeEngineContent in
theorem processProps_last_shape {B : Str} (h : processProps B ≠ []) :
    ∃ m b, processProps B = m ++ [b] ∧ isJSWS b = false := by
  rcases hqs : ((jsSplit ';' B).map addImportantProperty).filter
      (fun property => !property.isEmpty) with _ | ⟨q, rest⟩
  · exact absurd (by rw [show processProps B = jsJoin (str ("; "))
      (((jsSplit ';' B).map addImportantProperty).filter
        (fun property => !property.isEmpty)) from rfl, hqs]; rfl) h
  · have hgood := processProps_members_good B
    rw [hqs] at hgood
    have hshape : ∀ x ∈ q :: rest, ∃ m b, x = m ++ [b] ∧ isJSWS b = false := by
      intro x hx
      obtain ⟨hfix, hne, _, _⟩ := hgood x hx
      obtain ⟨m, b, hxe, hb⟩ := jsTrim_last_shape (by rw [hfix]; exact hne)
      exact ⟨m, b, by rw [← hfix]; exact hxe, hb⟩
    have := jsJoin_last_shape (q :: rest) (by simp) hshape
    rw [show processProps B = jsJoin (str ("; "))
      (((jsSplit ';' B).map addImportantProperty).filter
        (fun property => !property.isEmpty)) from rfl, hqs]
    exact this

open ThemeEngineContent in
theorem processProps_newline_wrap {B : Str} (h : processProps B ≠ []) :
    jsTrim (processProps B ++ ['\n']) = processProps B := by
  obtain ⟨a, t, hh, ha⟩ := processProps_head_shape h
  obtain ⟨m, b, hl, hb⟩ := processProps_last_shape h
  have h1 : trimStart (processProps B ++ ['\n']) = processProps B ++ ['\n'] := by
    rw [hh, show (a :: t) ++ ['\n'] = a :: (t ++ ['\n']) from rfl,
      trimStart_cons_neg _ ha]
  have h2 : trimEnd (processProps B ++ ['\n']) = processProps B := by
    rw [trimEnd_append_ws (processProps B) (by intro x hx; simp at hx; rw [hx]; rfl),
      hl, trimEnd_concat_neg _ hb]
  show trimEnd (trimStart (processProps B ++ ['\n'])) = processProps B
  rw [h1, h2]

open ThemeEngineContent in
theorem processRule_blank {rule : Str} (h : jsTrim rule = []) :
    processRule rule = rule := by
  unfold processRule
  rw [if_pos h]

open ThemeEngineContent in
theorem processRule_rule {sel body : Str} (hsel : openBrace ∉ sel)
    (hbody : openBrace ∉ body) (hB : jsTrim body ≠ []) :
    processRule (sel ++ openBrace :: body) =
      jsTrim sel ++ str (" \x7b\n  ") ++ processProps (jsTrim body) ++
        str ("\n\x7d") := by
  have htrim : jsTrim (sel ++ openBrace :: body) ≠ [] :=
    jsTrim_ne_nil_of_mem (a := openBrace) (by simp) (by decide)
  have hsplit : jsSplit openBrace (sel ++ openBrace :: body) = [sel, body] := by
    rw [jsSplit_append_sep _ hsel, jsSplit_of_not_mem hbody]
  unfold processRule
  rw [if_neg htrim, hsplit]
  simp [hB]

open ThemeEngineContent in
theorem addImportant_first_pass {sel body : Str}
    (hs1 : openBrace ∉ sel) (hs2 : closeBrace ∉ sel)
    (hb1 : openBrace ∉ body) (hb2 : closeBrace ∉ body)
    (hB : jsTrim body ≠ []) :
    addImportantToCSS (sel ++ openBrace :: (body ++ [closeBrace])) =
      (jsTrim sel ++ str (" \x7b\n  ") ++ processProps (jsTrim body) ++
        str ("\n\x7d")) ++ ['\n'] := by
  have hx : sel ++ openBrace :: (body ++ [closeBrace]) =
      (sel ++ openBrace :: body) ++ closeBrace :: [] := by simp
  have hnc : closeBrace ∉ sel ++ openBrace :: body := by
    intro hc
    rcases List.mem_append.mp hc with h1 | h2
    · exact hs2 h1
    · rcases List.mem_cons.mp h2 with h3 | h4
      · exact absurd h3 (by decide)
      · exact hb2 h4
  unfold addImportantToCSS
  rw [hx, jsSplit_append_sep _ hnc,
    show jsSplit closeBrace [] = [[]] from rfl, List.map_cons, List.map_cons,
    List.map_nil, processRule_rule hs1 hb1 hB,
    processRule_blank (show jsTrim [] = [] from rfl)]
  simp [jsJoin, str]

open ThemeEngineContent in
theorem addImportant_second_pass {sel body : Str}
    (hs1 : openBrace ∉ sel) (hs2 : closeBrace ∉ sel)
    (hb1 : openBrace ∉ body) (hb2 : closeBrace ∉ body)
    (hP : processProps (jsTrim body) ≠ []) :
    addImportantToCSS ((jsTrim sel ++ str (" \x7b\n  ") ++
        processProps (jsTrim body) ++ str ("\n\x7d")) ++ ['\n']) =
      ((jsTrim sel ++ str (" \x7b\n  ") ++ processProps (jsTrim body) ++
        str ("\n\x7d")) ++ ['\n']) ++ ['\n'] := by
  have hOBP : openBrace ∉ processProps (jsTrim body) := by
    intro hc
    rcases mem_processProps hc with h1 | h2 | h3
    · exact hb1 (mem_of_mem_jsTrim h1)
    · simp [str] at h2
      exact absurd h2 (by decide)
    · simp [str] at h3
      rcases h3 with h4 | h4 <;> revert h4 <;> decide
  have hCBP : closeBrace ∉ processProps (jsTrim body) := by
    intro hc
    rcases mem_processProps hc with h1 | h2 | h3
    · exact hb2 (mem_of_mem_jsTrim h1)
    · simp [str] at h2
      exact absurd h2 (by decide)
    · simp [str] at h3
      rcases h3 with h4 | h4 <;> revert h4 <;> decide
  have hOBS : openBrace ∉ jsTrim sel := fun hc => hs1 (mem_of_mem_jsTrim hc)
  have hCBS : closeBrace ∉ jsTrim sel := fun hc => hs2 (mem_of_mem_jsTrim hc)
  have hc1 : str (" \x7b\n  ") = ' ' :: openBrace :: '\n' :: ' ' :: ' ' :: [] := by
    decide
  have hc2 : str ("\n\x7d") = '\n' :: closeBrace :: [] := by decide
  have hE : (jsTrim sel ++ str (" \x7b\n  ") ++ processProps (jsTrim body) ++
      str ("\n\x7d")) ++ ['\n'] =
      ((jsTrim sel ++ [' ']) ++ openBrace ::
        ('\n' :: ' ' :: ' ' :: (processProps (jsTrim body) ++ ['\n']))) ++
        closeBrace :: ['\n'] := by
    rw [hc1, hc2]
    simp
  have hpreCB : closeBrace ∉ (jsTrim sel ++ [' ']) ++ openBrace ::
      ('\n' :: ' ' :: ' ' :: (processProps (jsTrim body) ++ ['\n'])) := by
    intro hc
    simp only [List.mem_append, List.mem_cons, List.mem_singleton] at hc
    rcases hc with (h1 | h1) | h1 | h1 | h1 | h1 | h1 | h1
    · exact hCBS h1
    · exact absurd h1 (by decide)
    · exact absurd h1 (by decide)
    · exact absurd h1 (by decide)
    · exact absurd h1 (by decide)
    · exact absurd h1 (by decide)
    · exact hCBP h1
    · exact absurd h1 (by decide)
  have hOBrest : openBrace ∉
      ('\n' :: ' ' :: ' ' :: (processProps (jsTrim body) ++ ['\n'])) := by
    intro hc
    simp only [List.mem_cons, List.mem_append, List.mem_singleton] at hc
    rcases hc with h1 | h1 | h1 | h1 | h1
    · exact absurd h1 (by decide)
    · exact absurd h1 (by decide)
    · exact absurd h1 (by decide)
    · exact hOBP h1
    · exact absurd h1 (by decide)
  have hOBsp : openBrace ∉ jsTrim sel ++ [' '] := by
    intro hc
    rcases List.mem_append.mp hc with h1 | h1
    · exact hOBS h1
    · exact absurd (List.mem_singleton.mp h1) (by decide)
  have hrest : jsTrim ('\n' :: ' ' :: ' ' ::
      (processProps (jsTrim body) ++ ['\n'])) = processProps (jsTrim body) := by
    rw [jsTrim_cons_ws _ (by decide), jsTrim_cons_ws _ (by decide),
      jsTrim_cons_ws _ (by decide)]
    exact processProps_newline_wrap hP
  unfold addImportantToCSS
  rw [hE, jsSplit_append_sep _ hpreCB,
    jsSplit_of_not_mem (show closeBrace ∉ ['\n'] from by decide),
    List.map_cons, List.map_cons, List.map_nil,
    processRule_rule hOBsp hOBrest (by rw [hrest]; exact hP),
    processRule_blank (show jsTrim ['\n'] = [] from by decide),
    hrest, processProps_idem, jsTrim_append_space]
  rw [hc1, hc2]
  simp [jsJoin, str]

/-- C7: importance injection is idempotent per property statement — the
per-statement processor is idempotent and passes statements already
carrying `!important` through unchanged (trimmed, with no second
suffix); the whole property pipeline is idempotent; and re-running
`addImportantToCSS` on its own output for a rule-block input
`sel{body}` reproduces the output (up to the trailing newline the
chunk rejoin appends), adding no second `!important`. -/
theorem C7_importance_injection_idempotent :
    (∀ p : Str,
      ThemeEngineContent.addImportantProperty
        (ThemeEngineContent.addImportantProperty p) =
        ThemeEngineContent.addImportantProperty p) ∧
    (∀ p : Str, jsTrim p ≠ [] →
      jsIncludes (str ("!important")) (jsTrim p) = true →
      ThemeEngineContent.addImportantProperty p = jsTrim p) ∧
    (∀ B : Str,
      ThemeEngineContent.processProps (ThemeEngineContent.processProps B) =
        ThemeEngineContent.processProps B) ∧
    (∀ sel body : Str, openBrace ∉ sel → closeBrace ∉ sel →
      openBrace ∉ body → closeBrace ∉ body →
      ThemeEngineContent.processProps (jsTrim body) ≠ [] →
      ThemeEngineContent.addImportantToCSS (ThemeEngineContent.addImportantToCSS
          (sel ++ openBrace :: (body ++ [closeBrace]))) =
        ThemeEngineContent.addImportantToCSS
          (sel ++ openBrace :: (body ++ [closeBrace])) ++ ['\n']) := by
  refine ⟨aip_idem, fun p h1 h2 => aip_of_includes h1 h2, processProps_idem,
    fun sel body hs1 hs2 hb1 hb2 hP => ?_⟩
  have hB : jsTrim body ≠ [] := by
    intro he
    rw [he] at hP
    exact hP processProps_nil
  rw [addImportant_first_pass hs1 hs2 hb1 hb2 hB,
    addImportant_second_pass hs1 hs2 hb1 hb2 hP]

/-- Closed witness for C7 at the rule block
`body { color: red; margin: 0 }`. -/
theorem C7_witness :
    (openBrace ∉ str ("body ") ∧ closeBrace ∉ str ("body ") ∧
      openBrace ∉ str (" color: red; margin: 0 ") ∧
      closeBrace ∉ str (" color: red; margin: 0 ") ∧
      ThemeEngineContent.processProps (jsTrim (str (" color: red; margin: 0 "))) ≠
        []) ∧
    ThemeEngineContent.addImportantToCSS (ThemeEngineContent.addImportantToCSS
        (str ("body ") ++ openBrace :: (str (" color: red; margin: 0 ") ++
          [closeBrace]))) =
      ThemeEngineContent.addImportantToCSS
        (str ("body ") ++ openBrace :: (str (" color: red; margin: 0 ") ++
          [closeBrace])) ++ ['\n'] :=
  ⟨by decide,
    C7_importance_injection_idempotent.2.2.2 (str ("body "))
      (str (" color: red; margin: 0 ")) (by decide) (by decide) (by decide)
      (by decide) (by decide)⟩
